import Mathlib

/-!
Verification of the market-data ingestion pipeline of the portfolio-analytics
repository (`workers/market-ingest/src/index.ts`), class `MarketDataIngestor`.

The embedding is a shallow one:

* A `MarketTick` mirrors the `MarketTick` interface (symbol, price, volume,
  timestamp).  Prices are modelled as `Int` (the claims never compute with
  them), timestamps as `Nat` milliseconds.
* `IngestState` collects all mutable state touched by the ingestor: the two
  Redis keys written per symbol (`<symbol>` holding the price and
  `<symbol>:timestamp` holding the timestamp, modelled as two maps), the
  pub/sub publication log, the `tickBuffer` array, and — as history
  variables recording the calls made to the ClickHouse client — the list of
  batches handed to `insert` (`handed`) and the list of batches whose insert
  succeeded (`writes`).  `results` is the environment oracle for the
  outcome of each `insert` call (head consumed per call; an exhausted oracle
  means the write succeeds), `attempts` counts insert calls, and
  `timerActive` records whether the `setInterval` batch processor is live.
* `processTickF` mirrors `processTick` line by line; the `FailPoint`
  argument injects a failure (a rejected promise) at each of the `await`
  boundaries of the source: the first `redis.set`, the second `redis.set`,
  or `redis.publish`.  Fallible code returns `Except`; the error payload is
  the state at the moment of the throw, since the mutations already applied
  persist.  `processTick` is the non-failing instance.
* `flushBatch` mirrors `flushBatch`: early return on an empty buffer,
  `splice(0, length)` taking the whole buffer, and on insert failure
  `unshift(...batch)` re-inserting the batch at the front.
* `shutdown` mirrors `shutdown`: clear the interval, then a single
  `flushBatch` call.
* `PipeState`/`PStep` give a small-step interleaving semantics for the
  asynchronous parts: a tick arrival, a flush (which moves the whole buffer
  into the set of in-flight inserts — the source has no in-flight guard, so
  the model allows several), and the settling of an in-flight insert with
  success or failure (failure performing the `unshift`).
-/

namespace MarketIngest

/-- The `MarketTick` interface of the source. -/
structure MarketTick where
  symbol : String
  price : Int
  volume : Int
  timestamp : Nat
  deriving DecidableEq, Repr

/-- The constant `BATCH_SIZE = 100` of line 21. -/
def BATCH_SIZE : Nat := 100

/-- The constant `BATCH_INTERVAL = 1000` of line 22. -/
def BATCH_INTERVAL : Nat := 1000

/-- All mutable state of a `MarketDataIngestor` together with the observable
history of its interactions with Redis and ClickHouse (see the header
comment). -/
structure IngestState where
  cachePrice : String → Option Int
  cacheTs : String → Option Nat
  published : List MarketTick
  tickBuffer : List MarketTick
  handed : List (List MarketTick)
  writes : List (List MarketTick)
  results : List Bool
  attempts : Nat
  timerActive : Bool

/-- Fresh ingestor: empty cache and buffer, no insert calls yet, timer
started by the constructor (`startBatchProcessor`), write oracle empty
(every insert succeeds). -/
def initState : IngestState :=
  { cachePrice := fun _ => none
    cacheTs := fun _ => none
    published := []
    tickBuffer := []
    handed := []
    writes := []
    results := []
    attempts := 0
    timerActive := true }

/-- Fresh ingestor with a prescribed oracle of insert outcomes. -/
def initWith (rs : List Bool) : IngestState :=
  { initState with results := rs }

/-- The first cache write of `processTick` (line 34): the price key of the
instrument is overwritten. -/
def setPriceStep (t : MarketTick) (s : IngestState) : IngestState :=
  { s with cachePrice := fun k => if k = t.symbol then some t.price else s.cachePrice k }

/-- The second cache write of `processTick` (line 35): the timestamp key of
the instrument is overwritten. -/
def setTsStep (t : MarketTick) (s : IngestState) : IngestState :=
  { s with cacheTs := fun k => if k = t.symbol then some t.timestamp else s.cacheTs k }

/-- The publish call `await redis.publish(..., JSON.stringify(tick))` of
line 38. -/
def publishStep (t : MarketTick) (s : IngestState) : IngestState :=
  { s with published := s.published ++ [t] }

/-- The buffer append `this.tickBuffer.push(tick)` of line 41. -/
def bufferStep (t : MarketTick) (s : IngestState) : IngestState :=
  { s with tickBuffer := s.tickBuffer ++ [t] }

/-- Mirror of `flushBatch` (lines 48–71): early return on an empty buffer, otherwise
`splice(0, length)` hands the whole buffer to `clickhouse.insert`; on
failure, `this.tickBuffer.unshift(...batch)`. -/
def flushBatch (s : IngestState) : IngestState :=
  if s.tickBuffer = [] then s
  else
    let batch := s.tickBuffer
    let ok := s.results.headD true
    let s1 : IngestState :=
      { s with tickBuffer := []
               results := s.results.tail
               handed := s.handed ++ [batch]
               attempts := s.attempts + 1 }
    if ok then { s1 with writes := s1.writes ++ [batch] }
    else { s1 with tickBuffer := batch ++ s1.tickBuffer }

/-- The threshold check of lines 43–45: flush when the buffer has reached
`BATCH_SIZE` ticks. -/
def maybeFlush (s : IngestState) : IngestState :=
  if BATCH_SIZE ≤ s.tickBuffer.length then flushBatch s else s

/-- Failure-injection points for `processTick`: each `await` of the source
may reject.  `fpNone` is the non-failing run. -/
inductive FailPoint where
  | fpNone
  | atCacheSet
  | atTsSet
  | atPublish
  deriving DecidableEq, Repr

/-- Mirror of `processTick` (lines 32–46) with a failure injected at the chosen
`await` boundary.  A rejection aborts the method body at that point; the
mutations already performed persist, so the error payload is the state at
the throw. -/
def processTickF (fp : FailPoint) (t : MarketTick) (s : IngestState) :
    Except IngestState IngestState :=
  if fp = FailPoint.atCacheSet then Except.error s
  else
    let s1 := setPriceStep t s
    if fp = FailPoint.atTsSet then Except.error s1
    else
      let s2 := setTsStep t s1
      if fp = FailPoint.atPublish then Except.error s2
      else
        let s3 := bufferStep t (publishStep t s2)
        Except.ok (maybeFlush s3)

/-- The non-failing `processTick`. -/
def processTick (t : MarketTick) (s : IngestState) : IngestState :=
  match processTickF FailPoint.fpNone t s with
  | Except.ok s' => s'
  | Except.error s' => s'

/-- Sequential ingestion of a list of ticks, every `await` succeeding. -/
def ingestAll : List MarketTick → IngestState → IngestState
  | [], s => s
  | t :: ts, s => ingestAll ts (processTick t s)

/-- The driver loop of `startMockDataFeed`: each tick is processed through
`processTick` and a rejected promise is caught and logged
(`.catch(...)`), after which the next tick is processed against the state
left behind by the throw. -/
def runFeed : List (FailPoint × MarketTick) → IngestState → IngestState
  | [], s => s
  | (fp, t) :: rest, s =>
      match processTickF fp t s with
      | Except.ok s' => runFeed rest s'
      | Except.error s' => runFeed rest s'

/-- Mirror of `shutdown` (lines 79–86): `clearInterval`, then a single
`flushBatch` call, then release of the Redis and ClickHouse clients. -/
def shutdown (s : IngestState) : IngestState :=
  flushBatch { s with timerActive := false }

/-- A feed of `n` ticks for `AAPL` with increasing prices and timestamps
(tick `i` carries price and timestamp `i`, 1-based). -/
def mkTicks (n : Nat) : List MarketTick :=
  (List.range n).map (fun i =>
    { symbol := "AAPL", price := Int.ofNat (i + 1), volume := 1, timestamp := i + 1 })

/-!
Small-step interleaving semantics for the asynchronous pipeline.  The
event loop interleaves three kinds of activity on the ingestor state:
a tick being processed (its buffer append), the body of `flushBatch` up to
the `await clickhouse.insert` (which moves the whole buffer into an
in-flight insert — the source has no in-flight guard, only the
empty-buffer early return, so a second flush may start while an earlier
insert is pending), and the settling of a pending insert (resolution, or
rejection performing `unshift(...batch)`).
-/

/-- The state visible to the interleaved steps: the `tickBuffer`, the
multiset of pending `clickhouse.insert` calls (as an ordered list), and the
batches durably written. -/
structure PipeState where
  buffer : List MarketTick
  inflight : List (List MarketTick)
  written : List (List MarketTick)
  deriving DecidableEq, Repr

/-- A tick arrival: `this.tickBuffer.push(tick)`. -/
def arriveState (t : MarketTick) (s : PipeState) : PipeState :=
  { s with buffer := s.buffer ++ [t] }

/-- The synchronous prefix of `flushBatch`: early return on an empty
buffer; otherwise `splice(0, length)` and start of the
`clickhouse.insert` call. -/
def flushStepState (s : PipeState) : PipeState :=
  if s.buffer = [] then s
  else { buffer := [], inflight := s.inflight ++ [s.buffer], written := s.written }

/-- A pending insert resolves: its batch is durable. -/
def settleOkState (s : PipeState) (pre post : List (List MarketTick))
    (b : List MarketTick) : PipeState :=
  { s with inflight := pre ++ post, written := s.written ++ [b] }

/-- A pending insert rejects: `this.tickBuffer.unshift(...batch)`. -/
def settleFailState (s : PipeState) (pre post : List (List MarketTick))
    (b : List MarketTick) : PipeState :=
  { s with inflight := pre ++ post, buffer := b ++ s.buffer }

/-- One interleaved step of the pipeline. -/
inductive PStep : PipeState → PipeState → Prop where
  | arrive (t : MarketTick) (s : PipeState) : PStep s (arriveState t s)
  | flush (s : PipeState) : PStep s (flushStepState s)
  | settleOk (s : PipeState) (pre post : List (List MarketTick)) (b : List MarketTick)
      (h : s.inflight = pre ++ b :: post) : PStep s (settleOkState s pre post b)
  | settleFail (s : PipeState) (pre post : List (List MarketTick)) (b : List MarketTick)
      (h : s.inflight = pre ++ b :: post) : PStep s (settleFailState s pre post b)

/-- The start state of the pipeline. -/
def pInit : PipeState := { buffer := [], inflight := [], written := [] }

/-- Reachability from the start state. -/
def Reachable (s : PipeState) : Prop := Relation.ReflTransGen PStep pInit s

/-- A sequence of tick arrivals. -/
def arriveAll (ts : List MarketTick) (s : PipeState) : PipeState :=
  ts.foldl (fun s t => arriveState t s) s

/-- The successive full batches of `BATCH_SIZE` ticks cut from the front of
a list; describes the batches flushed by the size threshold during an
all-success sequential run. -/
def chunks100 (l : List MarketTick) : List (List MarketTick) :=
  if h : l.length < BATCH_SIZE then []
  else l.take BATCH_SIZE :: chunks100 (l.drop BATCH_SIZE)
termination_by l.length
decreasing_by
  simp only [List.length_drop]
  simp only [BATCH_SIZE] at h ⊢
  omega

/-- The ticks left over after cutting full `BATCH_SIZE` batches from the
front of a list. -/
def rem100 (l : List MarketTick) : List MarketTick :=
  if h : l.length < BATCH_SIZE then l
  else rem100 (l.drop BATCH_SIZE)
termination_by l.length
decreasing_by
  simp only [List.length_drop]
  simp only [BATCH_SIZE] at h ⊢
  omega

/-- A well-formed sample tick. -/
def tickA : MarketTick := { symbol := "AAPL", price := 10, volume := 1, timestamp := 1 }

/-- A second well-formed sample tick. -/
def tickB : MarketTick := { symbol := "MSFT", price := 11, volume := 1, timestamp := 2 }

/-- A second tick for the `tickA` instrument, fresher than `tickA`. -/
def tickC : MarketTick := { symbol := "AAPL", price := 20, volume := 1, timestamp := 2 }

/-- A malformed tick: empty instrument name. -/
def badTick : MarketTick := { symbol := "", price := -1, volume := 1, timestamp := 7 }

/-- A tick for `AAPL` observed at time 5. -/
def tickLate : MarketTick := { symbol := "AAPL", price := 10, volume := 1, timestamp := 5 }

/-- A tick for `AAPL` observed at time 3, delivered after `tickLate`. -/
def tickEarly : MarketTick := { symbol := "AAPL", price := 20, volume := 1, timestamp := 3 }

/-- The ingestor state after processing `tickA` from fresh: the cache pairs
price 10 with timestamp 1 for `AAPL`. -/
def c4base : IngestState := processTick tickA initState

/-- The state in the middle of a second `processTick` call on `c4base`:
after the price write of line 34 and before the timestamp write of
line 35. -/
def c4mid : IngestState := setPriceStep tickC c4base

/-- An ingestor about to shut down: one buffered tick, and a durable store
that rejects the next insert but would accept the one after it. -/
def c7state : IngestState := { initWith [false, true] with tickBuffer := [tickA] }

/-- The 101-tick feed driving every tick through the non-failing
`processTick`, against a store that rejects the first insert and accepts
the rest. -/
def c10run : IngestState :=
  runFeed ((mkTicks 101).map (fun t => (FailPoint.fpNone, t))) (initWith [false])

/-- The pipeline state with the inserts of two one-tick batches pending at
once. -/
def c3final : PipeState := { buffer := [], inflight := [[tickA], [tickB]], written := [] }

/-! Helper lemmas. -/

/-- The non-failing `processTick` is the straight-line composition of its
four statements followed by the threshold check. -/
theorem processTick_eq (t : MarketTick) (s : IngestState) :
    processTick t s
      = maybeFlush (bufferStep t (publishStep t (setTsStep t (setPriceStep t s)))) := rfl

/-- The early return of `flushBatch` on an empty buffer. -/
theorem flushBatch_of_empty (s : IngestState) (h : s.tickBuffer = []) :
    flushBatch s = s := by
  simp [flushBatch, h]

/-- Case analysis on `flushBatch`: early return, successful insert, or
failed insert followed by the front re-insert. -/
theorem flushBatch_cases (s : IngestState) :
    (s.tickBuffer = [] ∧ flushBatch s = s)
    ∨ (s.tickBuffer ≠ [] ∧ s.results.headD true = true ∧
        flushBatch s = { s with tickBuffer := []
                                results := s.results.tail
                                handed := s.handed ++ [s.tickBuffer]
                                writes := s.writes ++ [s.tickBuffer]
                                attempts := s.attempts + 1 })
    ∨ (s.tickBuffer ≠ [] ∧ s.results.headD true = false ∧
        flushBatch s = { s with results := s.results.tail
                                handed := s.handed ++ [s.tickBuffer]
                                attempts := s.attempts + 1 }) := by
  by_cases hb : s.tickBuffer = []
  · exact Or.inl ⟨hb, flushBatch_of_empty s hb⟩
  · rcases hr : s.results with _ | ⟨r, rs⟩
    · refine Or.inr (Or.inl ⟨hb, by simp [hr], ?_⟩)
      simp [flushBatch, hb, hr]
    · cases r
      · refine Or.inr (Or.inr ⟨hb, by simp [hr], ?_⟩)
        simp [flushBatch, hb, hr]
      · refine Or.inr (Or.inl ⟨hb, by simp [hr], ?_⟩)
        simp [flushBatch, hb, hr]

/-- The flush never touches the price cache. -/
theorem flushBatch_cachePrice (s : IngestState) :
    (flushBatch s).cachePrice = s.cachePrice := by
  rcases flushBatch_cases s with ⟨_, he⟩ | ⟨_, _, he⟩ | ⟨_, _, he⟩ <;> rw [he]

/-- The flush never touches the timestamp cache. -/
theorem flushBatch_cacheTs (s : IngestState) :
    (flushBatch s).cacheTs = s.cacheTs := by
  rcases flushBatch_cases s with ⟨_, he⟩ | ⟨_, _, he⟩ | ⟨_, _, he⟩ <;> rw [he]

/-- Whatever the insert outcome, `flushBatch` conserves the ticks on the
durable path: the successfully written ticks followed by the buffered ones
are unchanged. -/
theorem flushBatch_flatten (s : IngestState) :
    (flushBatch s).writes.flatten ++ (flushBatch s).tickBuffer
      = s.writes.flatten ++ s.tickBuffer := by
  rcases flushBatch_cases s with ⟨_, he⟩ | ⟨_, _, he⟩ | ⟨_, _, he⟩ <;> rw [he] <;> simp

/-- With no failure prescribed, `flushBatch` leaves the oracle empty. -/
theorem flushBatch_results_nil (s : IngestState) (h : s.results = []) :
    (flushBatch s).results = [] := by
  rcases flushBatch_cases s with ⟨_, he⟩ | ⟨_, _, he⟩ | ⟨_, _, he⟩ <;> rw [he] <;> simp [h]

/-- With no failure prescribed, `flushBatch` leaves the buffer empty. -/
theorem flushBatch_buffer_nil (s : IngestState) (h : s.results = []) :
    (flushBatch s).tickBuffer = [] := by
  rcases flushBatch_cases s with ⟨hb, he⟩ | ⟨hb, hok, he⟩ | ⟨hb, hok, he⟩
  · rw [he]; exact hb
  · rw [he]
  · rw [h] at hok
    exact absurd hok (by simp)

/-- With no failure prescribed and a non-empty buffer, `flushBatch` hands
the whole buffer to the store and records it as written. -/
theorem flushBatch_writes_ok (s : IngestState) (h : s.results = [])
    (hb : s.tickBuffer ≠ []) :
    (flushBatch s).writes = s.writes ++ [s.tickBuffer] := by
  rcases flushBatch_cases s with ⟨hb2, he⟩ | ⟨hb2, hok, he⟩ | ⟨hb2, hok, he⟩
  · exact absurd hb2 hb
  · rw [he]
  · rw [h] at hok
    exact absurd hok (by simp)

/-- The threshold flush never touches the price cache. -/
theorem maybeFlush_cachePrice (s : IngestState) :
    (maybeFlush s).cachePrice = s.cachePrice := by
  unfold maybeFlush
  split
  · exact flushBatch_cachePrice s
  · rfl

/-- The threshold flush never touches the timestamp cache. -/
theorem maybeFlush_cacheTs (s : IngestState) :
    (maybeFlush s).cacheTs = s.cacheTs := by
  unfold maybeFlush
  split
  · exact flushBatch_cacheTs s
  · rfl

/-- The threshold flush conserves the ticks on the durable path. -/
theorem maybeFlush_flatten (s : IngestState) :
    (maybeFlush s).writes.flatten ++ (maybeFlush s).tickBuffer
      = s.writes.flatten ++ s.tickBuffer := by
  unfold maybeFlush
  split
  · exact flushBatch_flatten s
  · rfl

/-- After `processTick`, the price cache holds the price of the processed
tick under its instrument. -/
theorem processTick_cachePrice (t : MarketTick) (s : IngestState) :
    (processTick t s).cachePrice t.symbol = some t.price := by
  rw [processTick_eq, maybeFlush_cachePrice]
  simp [bufferStep, publishStep, setTsStep, setPriceStep]

/-- After `processTick`, the timestamp cache holds the timestamp of the
processed tick under its instrument. -/
theorem processTick_cacheTs (t : MarketTick) (s : IngestState) :
    (processTick t s).cacheTs t.symbol = some t.timestamp := by
  rw [processTick_eq, maybeFlush_cacheTs]
  simp [bufferStep, publishStep, setTsStep, setPriceStep]

/-- Processing a tick appends it to the durable path. -/
theorem processTick_flatten (t : MarketTick) (s : IngestState) :
    (processTick t s).writes.flatten ++ (processTick t s).tickBuffer
      = s.writes.flatten ++ s.tickBuffer ++ [t] := by
  rw [processTick_eq, maybeFlush_flatten]
  simp [bufferStep, publishStep, setTsStep, setPriceStep]

/-- Splitting a sequential ingestion run. -/
theorem ingestAll_append (l1 l2 : List MarketTick) :
    ∀ s : IngestState, ingestAll (l1 ++ l2) s = ingestAll l2 (ingestAll l1 s) := by
  induction l1 with
  | nil => intro s; rfl
  | cons t l1 ih =>
      intro s
      simp only [List.cons_append, ingestAll]
      exact ih _

/-- A sequential run appends exactly the ingested ticks, in order, to the
durable path (written batches followed by the buffer). -/
theorem ingestAll_flatten (ts : List MarketTick) :
    ∀ s : IngestState,
      (ingestAll ts s).writes.flatten ++ (ingestAll ts s).tickBuffer
        = s.writes.flatten ++ s.tickBuffer ++ ts := by
  induction ts with
  | nil => intro s; simp [ingestAll]
  | cons t ts ih =>
      intro s
      rw [show ingestAll (t :: ts) s = ingestAll ts (processTick t s) from rfl, ih,
        processTick_flatten]
      simp

/-- Equation lemma: `chunks100` on a list shorter than a full batch. -/
theorem chunks100_small (l : List MarketTick) (h : l.length < BATCH_SIZE) :
    chunks100 l = [] := by
  unfold chunks100
  simp [h]

/-- Equation lemma: `chunks100` on a list holding at least a full batch. -/
theorem chunks100_big (l : List MarketTick) (h : ¬ l.length < BATCH_SIZE) :
    chunks100 l = l.take BATCH_SIZE :: chunks100 (l.drop BATCH_SIZE) := by
  conv_lhs => unfold chunks100
  simp [h]

/-- Equation lemma: `rem100` on a list shorter than a full batch. -/
theorem rem100_small (l : List MarketTick) (h : l.length < BATCH_SIZE) :
    rem100 l = l := by
  unfold rem100
  simp [h]

/-- Equation lemma: `rem100` on a list holding at least a full batch. -/
theorem rem100_big (l : List MarketTick) (h : ¬ l.length < BATCH_SIZE) :
    rem100 l = rem100 (l.drop BATCH_SIZE) := by
  conv_lhs => unfold rem100
  simp [h]

/-- Cutting one full batch off the front of the chunk decomposition. -/
theorem chunks100_cons (b rest : List MarketTick) (hb : b.length = BATCH_SIZE) :
    chunks100 (b ++ rest) = b :: chunks100 rest ∧ rem100 (b ++ rest) = rem100 rest := by
  have hnot : ¬ (b ++ rest).length < BATCH_SIZE := by
    simp only [List.length_append, hb]
    omega
  refine ⟨?_, ?_⟩
  · rw [chunks100_big _ hnot, List.take_left' hb, List.drop_left' hb]
  · rw [rem100_big _ hnot, List.drop_left' hb]

/-- Every chunk produced by `chunks100` is a full batch. -/
theorem chunks100_sizes (n : Nat) :
    ∀ l : List MarketTick, l.length ≤ n → ∀ b ∈ chunks100 l, b.length = BATCH_SIZE := by
  induction n with
  | zero =>
      intro l hl b hb
      have h : l.length < BATCH_SIZE := by
        simp only [BATCH_SIZE]
        omega
      rw [chunks100_small _ h] at hb
      exact absurd hb (List.not_mem_nil b)
  | succ n ih =>
      intro l hl b hb
      by_cases h : l.length < BATCH_SIZE
      · rw [chunks100_small _ h] at hb
        exact absurd hb (List.not_mem_nil b)
      · rw [chunks100_big _ h] at hb
        rcases List.mem_cons.mp hb with rfl | hb2
        · rw [List.length_take]
          omega
        · refine ih (l.drop BATCH_SIZE) ?_ b hb2
          simp only [List.length_drop, BATCH_SIZE] at *
          omega

/-- Projection: the buffer after the four statements of `processTick`. -/
theorem steps_tickBuffer (t : MarketTick) (s : IngestState) :
    (bufferStep t (publishStep t (setTsStep t (setPriceStep t s)))).tickBuffer
      = s.tickBuffer ++ [t] := rfl

/-- Projection: the written batches after the four statements of
`processTick`. -/
theorem steps_writes (t : MarketTick) (s : IngestState) :
    (bufferStep t (publishStep t (setTsStep t (setPriceStep t s)))).writes
      = s.writes := rfl

/-- Projection: the oracle after the four statements of `processTick`. -/
theorem steps_results (t : MarketTick) (s : IngestState) :
    (bufferStep t (publishStep t (setTsStep t (setPriceStep t s)))).results
      = s.results := rfl

/-- Shape of an all-success sequential run: starting from an empty oracle
and a below-threshold buffer, the written batches are the successive full
`BATCH_SIZE` chunks of buffer-then-ingested ticks, and the buffer holds the
remainder, still below the threshold. -/
theorem ingestAll_chunks (ts : List MarketTick) :
    ∀ s : IngestState, s.results = [] → s.tickBuffer.length < BATCH_SIZE →
      (ingestAll ts s).writes = s.writes ++ chunks100 (s.tickBuffer ++ ts) ∧
      (ingestAll ts s).tickBuffer = rem100 (s.tickBuffer ++ ts) ∧
      (ingestAll ts s).results = [] ∧
      (ingestAll ts s).tickBuffer.length < BATCH_SIZE := by
  induction ts with
  | nil =>
      intro s h1 h2
      refine ⟨?_, ?_, h1, h2⟩
      · rw [show ingestAll [] s = s from rfl, List.append_nil, chunks100_small _ h2,
          List.append_nil]
      · rw [show ingestAll [] s = s from rfl, List.append_nil, rem100_small _ h2]
  | cons t ts ih =>
      intro s h1 h2
      rw [show ingestAll (t :: ts) s = ingestAll ts (processTick t s) from rfl]
      rw [processTick_eq]
      unfold maybeFlush
      rw [steps_tickBuffer]
      by_cases hth : BATCH_SIZE ≤ (s.tickBuffer ++ [t]).length
      · rw [if_pos hth]
        have hfull : (s.tickBuffer ++ [t]).length = BATCH_SIZE := by
          simp only [List.length_append, List.length_singleton] at *
          omega
        have hne : (bufferStep t (publishStep t (setTsStep t (setPriceStep t s)))).tickBuffer ≠ [] := by
          rw [steps_tickBuffer]
          simp
        have hres : (bufferStep t (publishStep t (setTsStep t (setPriceStep t s)))).results = [] := by
          rw [steps_results]; exact h1
        have hwr := flushBatch_writes_ok _ hres hne
        have hbuf := flushBatch_buffer_nil _ hres
        have hrs := flushBatch_results_nil _ hres
        rw [steps_writes, steps_tickBuffer] at hwr
        obtain ⟨ihw, ihb, ihr, ihlt⟩ :=
          ih (flushBatch (bufferStep t (publishStep t (setTsStep t (setPriceStep t s)))))
            hrs (by rw [hbuf]; simp [BATCH_SIZE])
        rw [hwr, hbuf] at ihw
        rw [hbuf] at ihb
        obtain ⟨hc, hr⟩ := chunks100_cons (s.tickBuffer ++ [t]) ts hfull
        refine ⟨?_, ?_, ihr, ihlt⟩
        · rw [ihw]
          rw [show s.tickBuffer ++ t :: ts = (s.tickBuffer ++ [t]) ++ ts by simp, hc]
          simp
        · rw [ihb]
          rw [show s.tickBuffer ++ t :: ts = (s.tickBuffer ++ [t]) ++ ts by simp, hr]
          simp
      · rw [if_neg hth]
        have hlt : (s.tickBuffer ++ [t]).length < BATCH_SIZE := by omega
        obtain ⟨ihw, ihb, ihr, ihlt⟩ :=
          ih (bufferStep t (publishStep t (setTsStep t (setPriceStep t s))))
            (by rw [steps_results]; exact h1) (by rw [steps_tickBuffer]; exact hlt)
        refine ⟨?_, ?_, ihr, ihlt⟩
        · rw [ihw]
          simp only [steps_writes, steps_tickBuffer]
          simp
        · rw [ihb]
          simp only [steps_tickBuffer]
          simp

/-- Length of the generated feed. -/
theorem mkTicks_length (n : Nat) : (mkTicks n).length = n := by
  simp [mkTicks]

/-- The generated feed grows at the tail. -/
theorem mkTicks_succ (n : Nat) :
    mkTicks (n + 1)
      = mkTicks n
        ++ [{ symbol := "AAPL", price := Int.ofNat (n + 1), volume := 1,
              timestamp := n + 1 }] := by
  simp [mkTicks, List.range_succ]

/-- Chunk decomposition of a 250-element list: two full batches and a
50-tick remainder. -/
theorem chunks100_250 (l : List MarketTick) (h : l.length = 250) :
    (chunks100 l).map List.length = [100, 100] ∧ (rem100 l).length = 50 := by
  have hB : BATCH_SIZE = 100 := rfl
  have h1 : ¬ l.length < BATCH_SIZE := by
    rw [hB, h]
    omega
  have hd1 : (l.drop BATCH_SIZE).length = 150 := by
    rw [List.length_drop, hB, h]
  have h2 : ¬ (l.drop BATCH_SIZE).length < BATCH_SIZE := by
    rw [hd1, hB]
    omega
  have hd2 : ((l.drop BATCH_SIZE).drop BATCH_SIZE).length = 50 := by
    rw [List.length_drop, hd1, hB]
  have h3 : ((l.drop BATCH_SIZE).drop BATCH_SIZE).length < BATCH_SIZE := by
    rw [hd2, hB]
    omega
  constructor
  · rw [chunks100_big _ h1, chunks100_big _ h2, chunks100_small _ h3]
    rw [List.map_cons, List.map_cons, List.map_nil, List.length_take, List.length_take,
      hd1, h, hB]
    decide
  · rw [rem100_big _ h1, rem100_big _ h2, rem100_small _ h3]
    exact hd2

/-- The flush hands only non-empty batches. -/
theorem flushBatch_handed (s : IngestState) (h : ∀ b ∈ s.handed, b ≠ []) :
    ∀ b ∈ (flushBatch s).handed, b ≠ [] := by
  rcases flushBatch_cases s with ⟨hb, he⟩ | ⟨hb, hok, he⟩ | ⟨hb, hok, he⟩
  · rw [he]
    exact h
  · rw [he]
    intro b hm
    rcases List.mem_append.mp hm with hm2 | hm2
    · exact h b hm2
    · rw [List.mem_singleton] at hm2
      rw [hm2]
      exact hb
  · rw [he]
    intro b hm
    rcases List.mem_append.mp hm with hm2 | hm2
    · exact h b hm2
    · rw [List.mem_singleton] at hm2
      rw [hm2]
      exact hb

/-- The threshold flush hands only non-empty batches. -/
theorem maybeFlush_handed (s : IngestState) (h : ∀ b ∈ s.handed, b ≠ []) :
    ∀ b ∈ (maybeFlush s).handed, b ≠ [] := by
  unfold maybeFlush
  split
  · exact flushBatch_handed s h
  · exact h

/-- The driver loop hands only non-empty batches, whatever the failure
pattern and insert outcomes. -/
theorem runFeed_handed (script : List (FailPoint × MarketTick)) :
    ∀ s : IngestState, (∀ b ∈ s.handed, b ≠ []) →
      ∀ b ∈ (runFeed script s).handed, b ≠ [] := by
  induction script with
  | nil => exact fun s h => h
  | cons p rest ih =>
      obtain ⟨fp, t⟩ := p
      intro s h
      cases fp with
      | fpNone =>
          exact ih (maybeFlush (bufferStep t (publishStep t (setTsStep t (setPriceStep t s)))))
            (maybeFlush_handed _ h)
      | atCacheSet => exact ih s h
      | atTsSet => exact ih (setPriceStep t s) h
      | atPublish => exact ih (setTsStep t (setPriceStep t s)) h

/-- Arrivals only append to the buffer; pending and written batches are
untouched. -/
theorem arriveAll_spec (ts : List MarketTick) :
    ∀ s : PipeState,
      (arriveAll ts s).buffer = s.buffer ++ ts ∧
      (arriveAll ts s).inflight = s.inflight ∧
      (arriveAll ts s).written = s.written := by
  induction ts with
  | nil => intro s; exact ⟨by simp [arriveAll], rfl, rfl⟩
  | cons t ts ih =>
      intro s
      obtain ⟨h1, h2, h3⟩ := ih (arriveState t s)
      refine ⟨?_, ?_, ?_⟩
      · rw [show arriveAll (t :: ts) s = arriveAll ts (arriveState t s) from rfl, h1]
        simp [arriveState]
      · rw [show arriveAll (t :: ts) s = arriveAll ts (arriveState t s) from rfl, h2]
        rfl
      · rw [show arriveAll (t :: ts) s = arriveAll ts (arriveState t s) from rfl, h3]
        rfl

/-! Claim theorems. -/

/-- C2: when the insert of a taken batch fails, the batch is re-inserted
at the front of the buffer in its original order: after the failed settle
the buffer is exactly the failed batch followed by the ticks that arrived
after the batch was taken. -/
theorem requeue_front_preserves_order (s : PipeState) (ts : List MarketTick)
    (h : s.buffer ≠ []) :
    PStep s (flushStepState s) ∧
    (arriveAll ts (flushStepState s)).inflight = s.inflight ++ [s.buffer] ∧
    PStep (arriveAll ts (flushStepState s))
      (settleFailState (arriveAll ts (flushStepState s)) s.inflight [] s.buffer) ∧
    (settleFailState (arriveAll ts (flushStepState s)) s.inflight [] s.buffer).buffer
      = s.buffer ++ ts ∧
    (settleFailState (arriveAll ts (flushStepState s)) s.inflight [] s.buffer).inflight
      = s.inflight := by
  have hfb : (flushStepState s).buffer = [] := by
    simp [flushStepState, h]
  have hfi : (flushStepState s).inflight = s.inflight ++ [s.buffer] := by
    simp [flushStepState, h]
  obtain ⟨hb, hi, hw⟩ := arriveAll_spec ts (flushStepState s)
  refine ⟨PStep.flush s, by rw [hi, hfi], ?_, ?_, ?_⟩
  · exact PStep.settleFail _ _ _ _ (by rw [hi, hfi])
  · rw [show (settleFailState (arriveAll ts (flushStepState s)) s.inflight [] s.buffer).buffer
        = s.buffer ++ (arriveAll ts (flushStepState s)).buffer from rfl, hb, hfb]
    simp
  · rw [show (settleFailState (arriveAll ts (flushStepState s)) s.inflight [] s.buffer).inflight
        = s.inflight ++ [] from rfl]
    simp

/-- Witness for C2 at a concrete input: a one-tick batch is taken, one new
tick arrives, the insert fails, and the buffer ends as the failed batch
followed by the new tick. -/
theorem requeue_front_preserves_order_witness :
    (settleFailState
        (arriveAll [tickB] (flushStepState { buffer := [tickA], inflight := [], written := [] }))
        [] [] [tickA]).buffer
      = [tickA] ++ [tickB] :=
  (requeue_front_preserves_order { buffer := [tickA], inflight := [], written := [] }
    [tickB] (by decide)).2.2.2.1

/-- C3 counterexample: a pipeline state with two durable writes in flight
at once is reachable, so the flush taken while the first insert was still
pending was not suppressed. -/
theorem two_writes_in_flight_reachable :
    Reachable c3final ∧ c3final.inflight.length = 2 := by
  constructor
  · have h0 : Reachable pInit := Relation.ReflTransGen.refl
    have h1 : Reachable (arriveState tickA pInit) :=
      Relation.ReflTransGen.tail h0 (PStep.arrive tickA pInit)
    have h2 : Reachable (flushStepState (arriveState tickA pInit)) :=
      Relation.ReflTransGen.tail h1 (PStep.flush _)
    have h3 : Reachable (arriveState tickB (flushStepState (arriveState tickA pInit))) :=
      Relation.ReflTransGen.tail h2 (PStep.arrive tickB _)
    have h4 : Reachable
        (flushStepState (arriveState tickB (flushStepState (arriveState tickA pInit)))) :=
      Relation.ReflTransGen.tail h3 (PStep.flush _)
    have he : flushStepState (arriveState tickB (flushStepState (arriveState tickA pInit)))
        = c3final := by decide
    rwa [he] at h4
  · decide

/-- C3 amended: the only suppression in `flushBatch` is the empty-buffer
early return; a flush on a non-empty buffer starts another insert even
while one is already pending, growing the in-flight set by one, so more
than one durable write can be in flight at a time. -/
theorem flush_suppressed_only_on_empty_buffer :
    (∀ s : PipeState, s.buffer = [] → flushStepState s = s) ∧
    (∀ s : PipeState, s.buffer ≠ [] →
       PStep s (flushStepState s) ∧
       (flushStepState s).inflight.length = s.inflight.length + 1) := by
  constructor
  · intro s h
    simp [flushStepState, h]
  · intro s h
    refine ⟨PStep.flush s, ?_⟩
    simp [flushStepState, h]

/-- Witness for the amended C3 at concrete inputs: the empty-buffer flush
is a no-op, and a flush with one insert already pending leaves two
in-flight writes. -/
theorem flush_suppressed_only_on_empty_buffer_witness :
    flushStepState pInit = pInit ∧
    (flushStepState { buffer := [tickA], inflight := [[tickB]], written := [] }).inflight.length
      = ([[tickB]] : List (List MarketTick)).length + 1 :=
  ⟨flush_suppressed_only_on_empty_buffer.1 pInit rfl,
   (flush_suppressed_only_on_empty_buffer.2
      { buffer := [tickA], inflight := [[tickB]], written := [] } (by decide)).2⟩

/-- C4 counterexample: between the two separate cache writes of a single
`processTick` call (lines 34 and 35) the cache pairs the new price with
the old timestamp: after tickA (price 10 at time 1) is ingested, the state
in the middle of ingesting tickC (price 20 at time 2) shows price 20 with
timestamp 1. -/
theorem torn_cache_update_observable :
    c4base.cachePrice "AAPL" = some 10 ∧ c4base.cacheTs "AAPL" = some 1 ∧
    processTickF FailPoint.atTsSet tickC c4base = Except.error c4mid ∧
    c4mid.cachePrice "AAPL" = some 20 ∧ c4mid.cacheTs "AAPL" = some 1 :=
  ⟨by decide, by decide, rfl, by decide, by decide⟩

/-- C4 amended: `processTick` writes price and timestamp as two separate
cache updates; after the first write the cache pairs the new price with
the previous timestamp, and only once both writes are done does it hold
the new price together with the new timestamp. -/
theorem cache_price_then_timestamp (t : MarketTick) (s : IngestState) :
    (setPriceStep t s).cachePrice t.symbol = some t.price ∧
    (setPriceStep t s).cacheTs t.symbol = s.cacheTs t.symbol ∧
    (processTick t s).cachePrice t.symbol = some t.price ∧
    (processTick t s).cacheTs t.symbol = some t.timestamp :=
  ⟨by simp [setPriceStep], rfl, processTick_cachePrice t s, processTick_cacheTs t s⟩

/-- C5 counterexample: when the first cache write rejects, `processTick`
aborts before the buffer append, so the tick reaches neither the buffer
nor the durable writer, even though the driver catches the error. -/
theorem cache_failure_drops_tick :
    (runFeed [(FailPoint.atCacheSet, tickA)] initState).tickBuffer = [] ∧
    (runFeed [(FailPoint.atCacheSet, tickA)] initState).handed = [] ∧
    (runFeed [(FailPoint.atCacheSet, tickA)] initState).writes = [] :=
  ⟨rfl, rfl, rfl⟩

/-- C5 amended: a cache or publish failure makes `processTick` throw
before the buffer append, so the failing tick is dropped from the durable
path (buffer, handed and written batches unchanged), while the driver
catches the rejection and continues with the remaining ticks. -/
theorem tick_error_skips_buffer_append (fp : FailPoint) (t : MarketTick)
    (s : IngestState) (rest : List (FailPoint × MarketTick))
    (h : fp ≠ FailPoint.fpNone) :
    ∃ s2, processTickF fp t s = Except.error s2 ∧
      s2.tickBuffer = s.tickBuffer ∧ s2.writes = s.writes ∧ s2.handed = s.handed ∧
      runFeed ((fp, t) :: rest) s = runFeed rest s2 := by
  cases fp with
  | fpNone => exact absurd rfl h
  | atCacheSet => exact ⟨s, rfl, rfl, rfl, rfl, rfl⟩
  | atTsSet => exact ⟨setPriceStep t s, rfl, rfl, rfl, rfl, rfl⟩
  | atPublish => exact ⟨setTsStep t (setPriceStep t s), rfl, rfl, rfl, rfl, rfl⟩

/-- Witness for the amended C5 at a concrete input. -/
theorem tick_error_skips_buffer_append_witness :
    ∃ s2, processTickF FailPoint.atCacheSet tickA initState = Except.error s2 ∧
      s2.tickBuffer = initState.tickBuffer ∧ s2.writes = initState.writes ∧
      s2.handed = initState.handed ∧
      runFeed [(FailPoint.atCacheSet, tickA)] initState = runFeed [] s2 :=
  tick_error_skips_buffer_append FailPoint.atCacheSet tickA initState [] (by decide)

/-- C6 counterexample: a malformed tick (empty instrument) is not rejected
at the ingest boundary: `processTick` returns successfully, the tick
enters the buffer, and the cache is mutated under the empty key. -/
theorem malformed_tick_enters_pipeline :
    (∃ s2, processTickF FailPoint.fpNone badTick initState = Except.ok s2) ∧
    (processTick badTick initState).tickBuffer = [badTick] ∧
    (processTick badTick initState).cachePrice "" = some (-1) ∧
    (processTick badTick initState).published = [badTick] :=
  ⟨⟨processTick badTick initState, rfl⟩, rfl, by decide, rfl⟩

/-- C6 amended: `processTick` performs no shape validation: every tick,
well-formed or not, updates the cache under its instrument and is appended
to the durable path. -/
theorem no_ingest_validation (t : MarketTick) (s : IngestState) :
    ∃ s2, processTickF FailPoint.fpNone t s = Except.ok s2 ∧
      s2.cachePrice t.symbol = some t.price ∧
      s2.writes.flatten ++ s2.tickBuffer = s.writes.flatten ++ s.tickBuffer ++ [t] :=
  ⟨processTick t s, rfl, processTick_cachePrice t s, processTick_flatten t s⟩

/-- C7 counterexample: shutdown with one buffered tick against a store
that rejects the next insert but would accept the following one: the
single final flush fails, draining stops after exactly one attempt, and
the tick stays in the buffer although a retry remained. -/
theorem shutdown_single_flush_leaves_buffer :
    (shutdown c7state).tickBuffer = [tickA] ∧
    (shutdown c7state).attempts = 1 ∧
    (shutdown c7state).results = [true] ∧
    (shutdown c7state).writes = [] ∧
    (shutdown c7state).timerActive = false :=
  ⟨by decide, by decide, by decide, by decide, by decide⟩

/-- C7 amended: shutdown cancels the periodic timer and then performs
exactly one flush call — one insert attempt when the buffer is non-empty,
none otherwise — with no drain loop: the buffer ends empty exactly when it
already was empty or that single attempt succeeds. -/
theorem shutdown_one_flush_attempt (s : IngestState) :
    (shutdown s).timerActive = false ∧
    (shutdown s).attempts = s.attempts + (if s.tickBuffer = [] then 0 else 1) ∧
    ((shutdown s).tickBuffer = [] ↔ (s.tickBuffer = [] ∨ s.results.headD true = true)) := by
  unfold shutdown
  rcases flushBatch_cases { s with timerActive := false } with
    ⟨hb, he⟩ | ⟨hb, hok, he⟩ | ⟨hb, hok, he⟩
  · have hb2 : s.tickBuffer = [] := hb
    rw [he]
    exact ⟨rfl, by simp [hb2], by simp [hb2]⟩
  · have hb2 : s.tickBuffer ≠ [] := hb
    have hok2 : s.results.headD true = true := hok
    rw [he]
    refine ⟨rfl, by simp [hb2], ?_⟩
    exact ⟨fun _ => Or.inr hok2, fun _ => rfl⟩
  · have hb2 : s.tickBuffer ≠ [] := hb
    have hok2 : s.results.headD true = false := hok
    rw [he]
    refine ⟨rfl, by simp [hb2], ?_⟩
    constructor
    · intro h1
      exact absurd h1 hb2
    · intro h1
      rcases h1 with h1 | h1
      · exact absurd h1 hb2
      · rw [h1] at hok2
        exact Bool.noConfusion hok2

/-- C8: `flushBatch` on an empty buffer is a no-op, and every batch handed
to the durable writer over any driver run (shutdown flush included) is
non-empty, whatever the per-tick failures and insert outcomes. -/
theorem flush_empty_noop_and_handed_nonempty :
    (∀ s : IngestState, s.tickBuffer = [] → flushBatch s = s) ∧
    (∀ (script : List (FailPoint × MarketTick)) (rs : List Bool),
       ∀ b ∈ (shutdown (runFeed script (initWith rs))).handed, b ≠ []) := by
  constructor
  · exact flushBatch_of_empty
  · intro script rs
    have h1 : ∀ b ∈ (runFeed script (initWith rs)).handed, b ≠ [] :=
      runFeed_handed script (initWith rs) (by intro b hb; simp [initWith, initState] at hb)
    exact flushBatch_handed _ h1

/-- Witness for C8 at concrete inputs: the fresh ingestor flushes to
itself, and the one batch handed during a one-tick run is non-empty. -/
theorem flush_empty_noop_and_handed_nonempty_witness :
    flushBatch initState = initState ∧ [tickA] ≠ [] :=
  ⟨flush_empty_noop_and_handed_nonempty.1 initState rfl,
   flush_empty_noop_and_handed_nonempty.2 [(FailPoint.fpNone, tickA)] [] [tickA] (by decide)⟩

/-- C9 counterexample: a fresher cache entry is overwritten by an
out-of-order older tick: after tickLate (time 5) the cache shows time 5,
but ingesting tickEarly (time 3, delivered later) leaves the cache with
the earlier timestamp 3 and the price of the stale tick. -/
theorem stale_tick_overwrites_fresher :
    (processTick tickLate initState).cacheTs "AAPL" = some 5 ∧
    (processTick tickEarly (processTick tickLate initState)).cachePrice "AAPL" = some 20 ∧
    (processTick tickEarly (processTick tickLate initState)).cacheTs "AAPL" = some 3 ∧
    tickEarly.timestamp < tickLate.timestamp :=
  ⟨by decide, by decide, by decide, by decide⟩

/-- C9 amended: the cache is last-delivered-wins with no monotonicity
check: after two ingestions for the same instrument, the cache holds the
price and timestamp of the tick delivered second, whatever the order of
the two observation times. -/
theorem cache_last_write_wins (s : IngestState) (t t2 : MarketTick)
    (h : t2.symbol = t.symbol) :
    (processTick t2 (processTick t s)).cachePrice t.symbol = some t2.price ∧
    (processTick t2 (processTick t s)).cacheTs t.symbol = some t2.timestamp := by
  rw [← h]
  exact ⟨processTick_cachePrice t2 _, processTick_cacheTs t2 _⟩

/-- Witness for the amended C9 at a concrete input. -/
theorem cache_last_write_wins_witness :
    (processTick tickEarly (processTick tickLate initState)).cachePrice "AAPL" = some 20 ∧
    (processTick tickEarly (processTick tickLate initState)).cacheTs "AAPL" = some 3 := by
  have h := cache_last_write_wins initState tickLate tickEarly rfl
  exact h

set_option maxRecDepth 40000

/-- C10: an execution in which one insert call receives more than
`BATCH_SIZE` ticks: with 101 ticks against a store rejecting the first
insert, the failed 100-tick batch is re-inserted at the front, the 101st
tick accumulates behind it, and the next flush hands the whole combined
buffer — 101 ticks — to the store in a single call. -/
theorem failed_flush_merges_into_oversized_batch :
    c10run.handed.map List.length = [100, 101] ∧
    c10run.writes.map List.length = [101] ∧
    BATCH_SIZE < 101 :=
  ⟨by decide, by decide, by decide⟩

/-- Every all-success run of 250 ticks, closed by the shutdown flush,
writes exactly three batches of 100, 100 and 50 ticks. -/
theorem shutdown_writes_250 (ts : List MarketTick) (hlen : ts.length = 250) :
    (shutdown (ingestAll ts initState)).writes.map List.length = [100, 100, 50] := by
  obtain ⟨hW, hB, hR, hLT⟩ := ingestAll_chunks ts initState rfl (by decide)
  have hW2 : (ingestAll ts initState).writes = chunks100 ts := by
    simpa [initState] using hW
  have hB2 : (ingestAll ts initState).tickBuffer = rem100 ts := by
    simpa [initState] using hB
  obtain ⟨hc, hr⟩ := chunks100_250 ts hlen
  have hne : (ingestAll ts initState).tickBuffer ≠ [] := by
    rw [hB2]
    intro hcon
    rw [hcon] at hr
    simp at hr
  have hwr2 : (shutdown (ingestAll ts initState)).writes
      = (ingestAll ts initState).writes ++ [(ingestAll ts initState).tickBuffer] :=
    flushBatch_writes_ok { ingestAll ts initState with timerActive := false } hR hne
  rw [hwr2, List.map_append, hW2, hc, hB2]
  simp [hr]

/-- After an all-success run ending in tick `t`, the shutdown state caches
the price of `t` under its instrument. -/
theorem shutdown_cache_last (tsAll ts : List MarketTick) (t : MarketTick)
    (hts : tsAll = ts ++ [t]) (sym : String) (p : Int)
    (hsym : t.symbol = sym) (hp : t.price = p) :
    (shutdown (ingestAll tsAll initState)).cachePrice sym = some p := by
  subst hts
  rw [← hsym, ← hp]
  have hcache : (shutdown (ingestAll (ts ++ [t]) initState)).cachePrice
      = (ingestAll (ts ++ [t]) initState).cachePrice :=
    flushBatch_cachePrice { ingestAll (ts ++ [t]) initState with timerActive := false }
  rw [hcache, ingestAll_append]
  exact processTick_cachePrice t (ingestAll ts initState)

/-- C1: while every durable write succeeds, a sequential run followed by
the final (timer or shutdown) flush hands the store exactly the ingested
ticks, in arrival order, partitioned into write calls of at most
`BATCH_SIZE` ticks each; in particular 250 `AAPL` ticks yield exactly the
three write calls of 100, 100 and 50 ticks, and the cache afterwards
holds the price of the 250th tick. -/
theorem ingest_all_success_batching :
    (∀ ts : List MarketTick,
        (shutdown (ingestAll ts initState)).writes.flatten = ts ∧
        ∀ b ∈ (shutdown (ingestAll ts initState)).writes, b.length ≤ BATCH_SIZE) ∧
    ((shutdown (ingestAll (mkTicks 250) initState)).writes.map List.length
        = [100, 100, 50] ∧
      (shutdown (ingestAll (mkTicks 250) initState)).cachePrice "AAPL" = some 250) := by
  refine ⟨?_, ?_, ?_⟩
  · intro ts
    obtain ⟨hW, hB, hR, hLT⟩ := ingestAll_chunks ts initState rfl (by decide)
    have hRT : ({ ingestAll ts initState with timerActive := false } : IngestState).results
        = [] := hR
    constructor
    · have h1 := flushBatch_flatten { ingestAll ts initState with timerActive := false }
      have h2 := flushBatch_buffer_nil _ hRT
      rw [h2, List.append_nil] at h1
      have h3 : (ingestAll ts initState).writes.flatten ++ (ingestAll ts initState).tickBuffer
          = ts := by
        have h4 := ingestAll_flatten ts initState
        simpa [initState] using h4
      rw [shutdown, h1]
      exact h3
    · intro b hbmem
      have hW2 : (ingestAll ts initState).writes = chunks100 ts := by
        simpa [initState] using hW
      rw [shutdown] at hbmem
      rcases flushBatch_cases { ingestAll ts initState with timerActive := false } with
        ⟨hb, he⟩ | ⟨hb, hok, he⟩ | ⟨hb, hok, he⟩
      · rw [he] at hbmem
        have hbm2 : b ∈ (ingestAll ts initState).writes := hbmem
        rw [hW2] at hbm2
        exact le_of_eq (chunks100_sizes ts.length ts le_rfl b hbm2)
      · rw [he] at hbmem
        have hbm2 : b ∈ (ingestAll ts initState).writes
            ++ [(ingestAll ts initState).tickBuffer] := hbmem
        rcases List.mem_append.mp hbm2 with hm | hm
        · rw [hW2] at hm
          exact le_of_eq (chunks100_sizes ts.length ts le_rfl b hm)
        · rw [List.mem_singleton] at hm
          rw [hm]
          exact le_of_lt hLT
      · rw [hRT] at hok
        simp at hok
  · exact shutdown_writes_250 (mkTicks 250) (mkTicks_length 250)
  · exact shutdown_cache_last (mkTicks 250) (mkTicks 249)
      { symbol := "AAPL", price := Int.ofNat (249 + 1), volume := 1, timestamp := 249 + 1 }
      (by rw [show (250 : Nat) = 249 + 1 from rfl, mkTicks_succ]) "AAPL" 250 rfl (by decide)

/-- Witness for C1 at a concrete input: a one-tick run flushes exactly
that tick at shutdown, and a batch of the produced run is within the size
bound. -/
theorem ingest_all_success_batching_witness :
    (shutdown (ingestAll (mkTicks 1) initState)).writes.flatten = mkTicks 1 ∧
    ([{ symbol := "AAPL", price := 1, volume := 1, timestamp := 1 }] : List MarketTick).length
      ≤ BATCH_SIZE :=
  ⟨(ingest_all_success_batching.1 (mkTicks 1)).1,
   (ingest_all_success_batching.1 (mkTicks 1)).2
     [{ symbol := "AAPL", price := 1, volume := 1, timestamp := 1 }] (by decide)⟩

end MarketIngest
